import Mathlib

/-!
Verification of the Orbnav galaxy-scene runtime (`GalaxyCanvas`).

This file shallowly embeds the parts of the scene component that the
specification's testable properties speak about:

* the constellation builder's nearest-neighbor selection (`candidateList`,
  `insertByDist`, `sortByDist`, `selectNeighbors`, `curveEdges`);
* the hover setter and its event/animation side effects (`setHovered`);
* the click handler (`onClick`);
* the focus-transition effect and tween completion (`applyFocusEffect`,
  `completeTargetTween`, `completeCameraTween`);
* the per-frame disturbance-weight smoothing (`updateDisturbWeight`);
* the per-particle galaxy position formula (`galaxyLivePos`);
* the label scale/opacity derivation (`labelScale`, `labelOpacity`);
* the degenerate-direction fallbacks (`curveNormal`, `approachDirection`).

Positions of site nodes and the picking logic are modelled over `ℚ` (the
selection logic only compares squared distances, which are exact), while
camera geometry and animation formulas that involve `sqrt`/`sin`/`cos` are
modelled over `ℝ`.
-/

/-- 3-vector over an ordered scalar type (site positions, used by the
picking/selection logic).  The code's coordinates are floating-point
numbers; the selection logic only ever multiplies, adds, subtracts and
compares them, so it is modelled generically over a linear ordered
commutative ring — `ℚ` being the intended instance and `ℤ` a fully
evaluable one used by the witnesses. -/
structure VQ (α : Type) where
  x : α
  y : α
  z : α
deriving DecidableEq, Repr

variable {α : Type} [LinearOrderedCommRing α]

/-- `Vector3.distanceToSquared`: `dx*dx + dy*dy + dz*dz`. -/
def VQ.distSq (a b : VQ α) : α :=
  (a.x - b.x) * (a.x - b.x) + (a.y - b.y) * (a.y - b.y) +
    (a.z - b.z) * (a.z - b.z)

/-- 3-vector over `ℝ` (camera poses, particle positions, directions). -/
structure V3 where
  x : ℝ
  y : ℝ
  z : ℝ

/-- `Vector3.lengthSq`. -/
noncomputable def V3.lengthSq (v : V3) : ℝ :=
  v.x ^ 2 + v.y ^ 2 + v.z ^ 2

/-- `Vector3.length`. -/
noncomputable def V3.length (v : V3) : ℝ :=
  Real.sqrt v.lengthSq

/-- `Vector3.sub`. -/
noncomputable def V3.sub (a b : V3) : V3 :=
  ⟨a.x - b.x, a.y - b.y, a.z - b.z⟩

/-- `Vector3.addScaledVector`. -/
noncomputable def V3.addScaled (a : V3) (d : V3) (s : ℝ) : V3 :=
  ⟨a.x + d.x * s, a.y + d.y * s, a.z + d.z * s⟩

/-- `Vector3.normalize`: `divideScalar(this.length() || 1)` — a zero-length
vector is divided by 1 and hence left unchanged. -/
noncomputable def V3.normalize (v : V3) : V3 :=
  ⟨v.x / (if v.length = 0 then 1 else v.length),
   v.y / (if v.length = 0 then 1 else v.length),
   v.z / (if v.length = 0 then 1 else v.length)⟩

/-- A site node as the scene runtime uses it: a stable id plus a fixed
3D position (name/url/color/category play no role in the verified logic). -/
structure SiteNode where
  id : String
  position : VQ ℚ
deriving DecidableEq, Repr

/-! ## Constellation builder (`curveSegments` loop, lines 335–367)

For each node index `index`, the code builds
`sitePoints.map((point, pointIndex) => ...).filter(pointIndex > index)
 .map(... distance: from.distanceToSquared(point)).sort((a,b) => a.distance - b.distance).slice(0, 2)`
and emits one curve per surviving candidate.  `Array.prototype.sort` with a
numeric comparator is stable (ES2019), so equal distances keep their
original, increasing-index order.  `insertByDist`/`sortByDist` is a stable
insertion sort by the distance component. -/

/-- The candidate list for node `i`: every higher index `j` paired with the
squared distance from node `i` to node `j`, in increasing `j` order. -/
def candidateList (pts : List (VQ α)) (i : ℕ) : List (ℕ × α) :=
  ((List.range pts.length).filter (fun j => decide (i < j))).map
    (fun j => (j, VQ.distSq (pts.getD i ⟨0, 0, 0⟩) (pts.getD j ⟨0, 0, 0⟩)))

/-- Stable insertion by the distance component: walk past strictly smaller
distances, insert before the first element of greater-or-equal distance. -/
def insertByDist (a : ℕ × α) : List (ℕ × α) → List (ℕ × α)
  | [] => [a]
  | b :: l => if b.2 < a.2 then b :: insertByDist a l else a :: b :: l

/-- Stable sort by the distance component, modelling the comparator
`(a, b) => a.distance - b.distance` of a stable `Array.prototype.sort`. -/
def sortByDist : List (ℕ × α) → List (ℕ × α)
  | [] => []
  | a :: l => insertByDist a (sortByDist l)

/-- `slice(0, 2)` of the sorted candidates: the neighbors node `i` connects to. -/
def selectNeighbors (pts : List (VQ α)) (i : ℕ) : List (ℕ × α) :=
  (sortByDist (candidateList pts i)).take 2

/-- The endpoint index pairs of all emitted constellation curves: one edge
`(i, candidate.pointIndex)` per selected candidate of each node `i`. -/
def curveEdges (pts : List (VQ α)) : List (ℕ × ℕ) :=
  (List.range pts.length).flatMap
    (fun i => (selectNeighbors pts i).map (fun p => (i, p.1)))

/-- Lexicographic strict order on (index, distance) candidates: smaller
distance first, ties broken by smaller index. -/
def lexLt (a b : ℕ × α) : Prop :=
  a.2 < b.2 ∨ (a.2 = b.2 ∧ a.1 < b.1)

instance (a b : ℕ × α) : Decidable (lexLt a b) := by
  unfold lexLt
  infer_instance

/-! ## Hover setter (`setHovered`, lines 397–433) -/

/-- The payload of an `onHoverChange` emission. -/
structure HoverPayload where
  site : Option SiteNode
  x : ℝ
  y : ℝ

/-- Everything `setHovered` does: the new `currentHovered`, the
`onHoverChange` emissions, the started scale tweens `(site id, target
scale)`, and the cursor style assignment (`none` = left untouched). -/
structure SetHoveredResult where
  current : Option SiteNode
  events : List HoverPayload
  scaleTweens : List (String × ℝ)
  cursor : Option String

/-- `setHovered(nextHovered)` as a function of the previous `currentHovered`
and the last known pointer client coordinates.  Identical next target is an
early return; otherwise the previous node (if any) is tweened back to scale
1, and the new node (if any) is tweened to 1.45 with a pointer cursor and a
hover event carrying the pointer coordinates — while clearing emits
`{site: null, x: 0, y: 0}` and a default cursor. -/
noncomputable def setHovered (cur next : Option SiteNode) (pointer : ℝ × ℝ) :
    SetHoveredResult :=
  if cur = next then ⟨cur, [], [], none⟩
  else
    let downs : List (String × ℝ) :=
      match cur with
      | some s => [(s.id, 1)]
      | none => []
    match next with
    | some s =>
        ⟨some s, [⟨some s, pointer.1, pointer.2⟩], downs ++ [(s.id, 1.45)],
          some "pointer"⟩
    | none => ⟨none, [⟨none, 0, 0⟩], downs, some "default"⟩

/-! ## Click handler (`onClick`, lines 479–492) -/

/-- `dragThreshold` (line 395). -/
def dragThreshold : ℝ := 8

/-- `onClick` as a function of the accumulated drag distance, the focus lock
and the hovered node; returns the new drag distance and the `onNodeSelect`
emission (if any). -/
noncomputable def onClick (dragDistance : ℝ) (focusLocked : Bool)
    (hovered : Option SiteNode) : ℝ × Option SiteNode :=
  if dragThreshold < dragDistance then (0, none)
  else if focusLocked then (dragDistance, none)
  else
    match hovered with
    | none => (dragDistance, none)
    | some s => (0, some s)

/-! ## Camera focus controller (second `useEffect`, lines 663–746) -/

/-- `BASE_CAMERA_POSITION` (line 7). -/
noncomputable def baseCameraPosition : V3 := ⟨0, 0, 40⟩

/-- `FOCUS_DISTANCE` (line 9). -/
def focusDistance : ℝ := 8

/-- A gsap tween on a 3-vector field: its end value, plus the focus id its
`onComplete` guard was closed over (`none` for tweens without a
focus-completion callback). -/
structure Tween where
  endPos : V3
  focusId : Option String

/-- The mutable `SceneRuntime` state the focus controller touches. -/
structure SceneRuntime where
  cameraPos : V3
  controlsTarget : V3
  pendingFocusId : Option String
  focusLocked : Bool
  controlsEnabled : Bool
  currentHovered : Option SiteNode
  cameraTween : Option Tween
  targetTween : Option Tween

/-- Events emitted to the external collaborators. -/
inductive SceneOutput where
  | hoverChange (payload : HoverPayload)
  | focusComplete (id : String)
  | nodeSelect (id : String)

/-- The focus ids of the `onFocusComplete` emissions in an output list. -/
def focusCompletions (outs : List SceneOutput) : List String :=
  outs.filterMap fun o =>
    match o with
    | .focusComplete id => some id
    | _ => none

/-- `approachDirection` (lines 689–693): camera position minus focus target,
replaced by the default `(0, 0, 1)` when its squared length is below
`0.0001`, then normalized. -/
noncomputable def approachDirection (cameraPos focusTarget : V3) : V3 :=
  V3.normalize
    (if (V3.sub cameraPos focusTarget).lengthSq < 0.0001 then ⟨0, 0, 1⟩
     else V3.sub cameraPos focusTarget)

/-- The focus effect (lines 663–746) as a state transformer.  `worldPos`
models `targetNode.getWorldPosition` — the world position of the node's
mesh (the node group may have been rotated by the frame loop).  Both
in-flight tweens are killed (replaced) first.  A non-null request records
the pending focus id, locks focus, clears hover, disables the controls and
starts tweens toward the node; a null request clears the pending id,
unlocks, re-enables the controls, clears hover and starts tweens back to
the base pose and the origin. -/
noncomputable def applyFocusEffect (worldPos : SiteNode → V3)
    (rt : SceneRuntime) (focusSite : Option SiteNode) :
    SceneRuntime × List SceneOutput :=
  match focusSite with
  | some site =>
      let hover := setHovered rt.currentHovered none (0, 0)
      let focusTarget := worldPos site
      let dir := approachDirection rt.cameraPos focusTarget
      let destination := focusTarget.addScaled dir focusDistance
      (⟨rt.cameraPos, rt.controlsTarget, some site.id, true, false,
        hover.current, some ⟨destination, none⟩,
        some ⟨focusTarget, some site.id⟩⟩,
        hover.events.map SceneOutput.hoverChange)
  | none =>
      let hover := setHovered rt.currentHovered none (0, 0)
      (⟨rt.cameraPos, rt.controlsTarget, none, false, true, hover.current,
        some ⟨baseCameraPosition, none⟩, some ⟨⟨0, 0, 0⟩, none⟩⟩,
        hover.events.map SceneOutput.hoverChange ++
          [SceneOutput.hoverChange ⟨none, 0, 0⟩])

/-- Natural completion of the in-flight target tween: write its end value
into `controls.target`; the focus tween's `onComplete` fires
`onFocusComplete` only when `pendingFocusId` still equals the closed-over
focus id. -/
noncomputable def completeTargetTween (rt : SceneRuntime) :
    SceneRuntime × List SceneOutput :=
  match rt.targetTween with
  | none => (rt, [])
  | some t =>
      let rt' : SceneRuntime :=
        ⟨rt.cameraPos, t.endPos, rt.pendingFocusId, rt.focusLocked,
          rt.controlsEnabled, rt.currentHovered, rt.cameraTween, none⟩
      match t.focusId with
      | some id =>
          if rt.pendingFocusId = some id then (rt', [.focusComplete id])
          else (rt', [])
      | none => (rt', [])

/-- Natural completion of the in-flight camera tween: write its end value
into the camera position (camera tweens carry no completion callback). -/
noncomputable def completeCameraTween (rt : SceneRuntime) :
    SceneRuntime × List SceneOutput :=
  match rt.cameraTween with
  | none => (rt, [])
  | some t =>
      (⟨t.endPos, rt.controlsTarget, rt.pendingFocusId, rt.focusLocked,
        rt.controlsEnabled, rt.currentHovered, none, rt.targetTween⟩, [])

/-- The trace of claim C3: focus request for `A`, focus request for `B`
before `A`'s transition completes, then natural completion of the live
target tween. Returns the final state and all emissions, in order. -/
noncomputable def supersedeTrace (worldPos : SiteNode → V3)
    (rt : SceneRuntime) (A B : SiteNode) : SceneRuntime × List SceneOutput :=
  let r1 := applyFocusEffect worldPos rt (some A)
  let r2 := applyFocusEffect worldPos r1.1 (some B)
  let r3 := completeTargetTween r2.1
  (r3.1, r1.2 ++ r2.2 ++ r3.2)

/-! ## Frame scheduler pieces (`animate`, lines 527–629) -/

/-- One frame's update of the disturbance weight (lines 533–538):
`disturbWeight += (disturbWeightTarget - disturbWeight) * min(1, delta * 6)`. -/
noncomputable def updateDisturbWeight (w target delta : ℝ) : ℝ :=
  w + (target - w) * min 1 (delta * 6)

/-- The weight across successive frames of fixed delta with target 0
(pointer left the canvas or focus is locked). -/
noncomputable def weightSeq (w delta : ℝ) : ℕ → ℝ
  | 0 => w
  | n + 1 => updateDisturbWeight (weightSeq w delta n) 0 delta

/-- The undisturbed per-particle galaxy position formula (lines 541–564):
radius from the base XZ, a swirl rotation about Y, a radial pulse scale and
a vertical wobble, all driven by the per-particle parameters. -/
noncomputable def galaxyLivePos (base : V3)
    (phase speed amplitude twist pulseAmp elapsed : ℝ) : V3 :=
  let radius := Real.sqrt (base.x ^ 2 + base.z ^ 2)
  let swirl := Real.sin (elapsed * speed + phase + radius * 0.22) * twist
  let pulse :=
    1 + Real.sin (elapsed * (speed * 0.72) + phase * 1.7 + radius * 0.08) * pulseAmp
  ⟨(base.x * Real.cos swirl - base.z * Real.sin swirl) * pulse,
    base.y + Real.sin (elapsed * (speed * 1.38) + phase + radius * 0.19) * amplitude,
    (base.x * Real.sin swirl + base.z * Real.cos swirl) * pulse⟩

/-- `THREE.MathUtils.clamp(value, min, max) = Math.max(min, Math.min(max, value))`. -/
noncomputable def clampR (value lo hi : ℝ) : ℝ :=
  max lo (min hi value)

/-- Label scale from camera distance (line 622). -/
noncomputable def labelScale (distance : ℝ) : ℝ :=
  clampR (3.1 - distance * 0.045) 0.72 2.35

/-- Label material opacity from camera distance (line 624). -/
noncomputable def labelOpacity (distance : ℝ) : ℝ :=
  clampR (1.04 - distance * 0.012) 0.24 0.95

/-- `curveNormal` (lines 353–357): the normalized midpoint, replaced by the
up-vector `(0, 1, 0)` when its squared length is below `0.0001`. -/
noncomputable def curveNormal (midpoint : V3) : V3 :=
  if (V3.normalize midpoint).lengthSq < 0.0001 then ⟨0, 1, 0⟩
  else V3.normalize midpoint

/-! ## Helper lemmas for the constellation builder -/

theorem mem_insertByDist {a x : ℕ × α} {l : List (ℕ × α)} :
    x ∈ insertByDist a l ↔ x = a ∨ x ∈ l := by
  induction l with
  | nil => simp [insertByDist]
  | cons b l ih =>
      by_cases hb : b.2 < a.2
      · simp only [insertByDist, if_pos hb, List.mem_cons, ih]
        tauto
      · simp only [insertByDist, if_neg hb, List.mem_cons]

theorem insertByDist_perm (a : ℕ × α) (l : List (ℕ × α)) :
    (insertByDist a l).Perm (a :: l) := by
  induction l with
  | nil => simp [insertByDist]
  | cons b l ih =>
      by_cases hb : b.2 < a.2
      · simp only [insertByDist, if_pos hb]
        exact (ih.cons b).trans (List.Perm.swap a b l)
      · simp [insertByDist, if_neg hb]

theorem sortByDist_perm (l : List (ℕ × α)) : (sortByDist l).Perm l := by
  induction l with
  | nil => simp [sortByDist]
  | cons a l ih =>
      exact (insertByDist_perm a (sortByDist l)).trans (ih.cons a)

theorem insertByDist_pairwise {a : ℕ × α} {l : List (ℕ × α)}
    (h : l.Pairwise lexLt) (ha : ∀ b ∈ l, a.1 < b.1) :
    (insertByDist a l).Pairwise lexLt := by
  induction l with
  | nil => simp [insertByDist, List.pairwise_singleton]
  | cons b l ih =>
      rcases List.pairwise_cons.mp h with ⟨hb, hl⟩
      by_cases hba : b.2 < a.2
      · simp only [insertByDist, if_pos hba]
        refine List.pairwise_cons.mpr ⟨?_, ih hl fun c hc => ha c (List.mem_cons_of_mem b hc)⟩
        intro x hx
        rcases mem_insertByDist.mp hx with rfl | hx
        · exact Or.inl hba
        · exact hb x hx
      · simp only [insertByDist, if_neg hba]
        have hab : a.2 ≤ b.2 := le_of_not_lt hba
        refine List.pairwise_cons.mpr ⟨?_, h⟩
        intro x hx
        rcases List.mem_cons.mp hx with rfl | hx
        · rcases lt_or_eq_of_le hab with hlt | heq
          · exact Or.inl hlt
          · exact Or.inr ⟨heq, ha x (List.mem_cons_self x _)⟩
        · have hbx := hb x hx
          have hax : a.1 < x.1 := ha x (List.mem_cons_of_mem b hx)
          rcases hbx with hlt | ⟨heq, _⟩
          · rcases lt_or_eq_of_le (hab.trans hlt.le) with h1 | h1
            · exact Or.inl h1
            · exact Or.inr ⟨h1, hax⟩
          · rcases lt_or_eq_of_le (heq ▸ hab) with h1 | h1
            · exact Or.inl h1
            · exact Or.inr ⟨h1, hax⟩

theorem sortByDist_pairwise {l : List (ℕ × α)}
    (h : l.Pairwise fun p q => p.1 < q.1) :
    (sortByDist l).Pairwise lexLt := by
  induction l with
  | nil => simp [sortByDist]
  | cons a l ih =>
      rcases List.pairwise_cons.mp h with ⟨ha, hl⟩
      refine insertByDist_pairwise (ih hl) ?_
      intro b hb
      exact ha b ((sortByDist_perm l).mem_iff.mp hb)

theorem candidateList_fst_lt {pts : List (VQ α)} {i : ℕ} {p : ℕ × α}
    (hp : p ∈ candidateList pts i) : i < p.1 := by
  rcases List.mem_map.mp hp with ⟨j, hj, rfl⟩
  have := List.mem_filter.mp hj
  exact of_decide_eq_true this.2

theorem candidateList_pairwise (pts : List (VQ α)) (i : ℕ) :
    (candidateList pts i).Pairwise fun p q => p.1 < q.1 := by
  unfold candidateList
  rw [List.pairwise_map]
  exact (List.pairwise_lt_range _).filter _

/-- C2: for every list of node positions, each node index `i` gets edges to
exactly the `min 2 (number of higher indices)` candidates `j > i` that are
least in the lexicographic (squared distance, index) order — i.e. the two
nearest higher-index nodes with distance ties broken toward the lower
index — and every emitted edge goes from `i` to a strictly higher index, so
there are no self-edges. -/
theorem constellation_selects_two_nearest (pts : List (VQ α)) (i : ℕ)
    (hi : i < pts.length) :
    (selectNeighbors pts i).length = min 2 (candidateList pts i).length
    ∧ (∀ p ∈ selectNeighbors pts i, p ∈ candidateList pts i ∧ i < p.1)
    ∧ (selectNeighbors pts i).Pairwise lexLt
    ∧ (∀ p ∈ selectNeighbors pts i, ∀ q ∈ candidateList pts i,
        q ∉ selectNeighbors pts i → lexLt p q)
    ∧ (∀ e ∈ curveEdges pts, e.1 < e.2) := by
  have hperm := sortByDist_perm (candidateList pts i)
  have hpair := sortByDist_pairwise (candidateList_pairwise pts i)
  have hmemC : ∀ p ∈ selectNeighbors pts i, p ∈ candidateList pts i := by
    intro p hp
    exact hperm.mem_iff.mp (List.mem_of_mem_take hp)
  refine ⟨?_, ?_, ?_, ?_, ?_⟩
  · unfold selectNeighbors
    rw [List.length_take, hperm.length_eq]
  · intro p hp
    exact ⟨hmemC p hp, candidateList_fst_lt (hmemC p hp)⟩
  · exact hpair.sublist (List.take_sublist _ _)
  · intro p hp q hq hqn
    have hqs : q ∈ sortByDist (candidateList pts i) := hperm.mem_iff.mpr hq
    have hsplit := List.take_append_drop 2 (sortByDist (candidateList pts i))
    have hpair2 :
        ((sortByDist (candidateList pts i)).take 2 ++
          (sortByDist (candidateList pts i)).drop 2).Pairwise lexLt := by
      rw [hsplit]; exact hpair
    have hqd : q ∈ (sortByDist (candidateList pts i)).drop 2 := by
      have : q ∈ (sortByDist (candidateList pts i)).take 2 ++
          (sortByDist (candidateList pts i)).drop 2 := by
        rw [hsplit]; exact hqs
      rcases List.mem_append.mp this with h | h
      · exact absurd h hqn
      · exact h
    exact (List.pairwise_append.mp hpair2).2.2 p hp q hqd
  · intro e he
    rcases List.mem_flatMap.mp he with ⟨j, _, hj⟩
    rcases List.mem_map.mp hj with ⟨p, hp, rfl⟩
    have hperm' := sortByDist_perm (candidateList pts j)
    exact candidateList_fst_lt (hperm'.mem_iff.mp (List.mem_of_mem_take hp))

/-- Witness for C2: on four concrete integer points, node 0's candidates
have squared distances 1 (j = 1), 9 (j = 2) and 2 (j = 3), and the builder
selects exactly `[(1, 1), (3, 2)]`. -/
theorem constellation_selects_two_nearest_witness :
    0 < ([⟨0, 0, 0⟩, ⟨1, 0, 0⟩, ⟨3, 0, 0⟩, ⟨1, 1, 0⟩] : List (VQ ℤ)).length
    ∧ selectNeighbors ([⟨0, 0, 0⟩, ⟨1, 0, 0⟩, ⟨3, 0, 0⟩, ⟨1, 1, 0⟩] : List (VQ ℤ)) 0 =
        [(1, 1), (3, 2)]
    ∧ ((selectNeighbors ([⟨0, 0, 0⟩, ⟨1, 0, 0⟩, ⟨3, 0, 0⟩, ⟨1, 1, 0⟩] : List (VQ ℤ)) 0).length =
        min 2 (candidateList ([⟨0, 0, 0⟩, ⟨1, 0, 0⟩, ⟨3, 0, 0⟩, ⟨1, 1, 0⟩] : List (VQ ℤ)) 0).length
      ∧ (∀ p ∈ selectNeighbors ([⟨0, 0, 0⟩, ⟨1, 0, 0⟩, ⟨3, 0, 0⟩, ⟨1, 1, 0⟩] : List (VQ ℤ)) 0,
          p ∈ candidateList ([⟨0, 0, 0⟩, ⟨1, 0, 0⟩, ⟨3, 0, 0⟩, ⟨1, 1, 0⟩] : List (VQ ℤ)) 0 ∧ 0 < p.1)
      ∧ (selectNeighbors ([⟨0, 0, 0⟩, ⟨1, 0, 0⟩, ⟨3, 0, 0⟩, ⟨1, 1, 0⟩] : List (VQ ℤ)) 0).Pairwise lexLt
      ∧ (∀ p ∈ selectNeighbors ([⟨0, 0, 0⟩, ⟨1, 0, 0⟩, ⟨3, 0, 0⟩, ⟨1, 1, 0⟩] : List (VQ ℤ)) 0,
          ∀ q ∈ candidateList ([⟨0, 0, 0⟩, ⟨1, 0, 0⟩, ⟨3, 0, 0⟩, ⟨1, 1, 0⟩] : List (VQ ℤ)) 0,
          q ∉ selectNeighbors ([⟨0, 0, 0⟩, ⟨1, 0, 0⟩, ⟨3, 0, 0⟩, ⟨1, 1, 0⟩] : List (VQ ℤ)) 0 → lexLt p q)
      ∧ (∀ e ∈ curveEdges ([⟨0, 0, 0⟩, ⟨1, 0, 0⟩, ⟨3, 0, 0⟩, ⟨1, 1, 0⟩] : List (VQ ℤ)), e.1 < e.2)) :=
  ⟨by decide, by decide,
    constellation_selects_two_nearest ([⟨0, 0, 0⟩, ⟨1, 0, 0⟩, ⟨3, 0, 0⟩, ⟨1, 1, 0⟩] : List (VQ ℤ)) 0
      (by decide)⟩

/-- C4: `onClick` emits `onNodeSelect` for the hovered site exactly when
the accumulated drag distance does not exceed the fixed 8-pixel threshold,
the camera is not focus-locked and some node is hovered; a click with drag
distance above the threshold never emits regardless of hover state; a
qualifying click resets the drag accumulator to 0. -/
theorem onClick_select_iff (d : ℝ) (locked : Bool) (hov : Option SiteNode) :
    (∀ s, (onClick d locked hov).2 = some s ↔
        d ≤ 8 ∧ locked = false ∧ hov = some s)
    ∧ ((8 : ℝ) < d → (onClick d locked hov).2 = none)
    ∧ (d ≤ 8 → locked = false → hov ≠ none →
        (onClick d locked hov).1 = 0 ∧ (onClick d locked hov).2 = hov) := by
  refine ⟨?_, ?_, ?_⟩
  · intro s
    unfold onClick dragThreshold
    by_cases h8 : (8 : ℝ) < d
    · simp [h8, not_le.mpr h8]
    · cases locked
      · cases hov <;> simp [h8, not_lt.mp h8]
      · simp [h8]
  · intro h8
    unfold onClick dragThreshold
    simp [h8]
  · intro hle hlock hhov
    unfold onClick dragThreshold
    rw [if_neg (not_lt.mpr hle)]
    subst hlock
    cases hov with
    | none => exact absurd rfl hhov
    | some s => simp

/-- Witness for C4: a click with drag distance 3, no focus lock and a
hovered node emits that node and resets the accumulator. -/
theorem onClick_select_iff_witness :
    ((3 : ℝ) ≤ 8 ∧ false = false
      ∧ (some ⟨"a", ⟨0, 0, 0⟩⟩ : Option SiteNode) = some ⟨"a", ⟨0, 0, 0⟩⟩)
    ∧ (onClick 3 false (some ⟨"a", ⟨0, 0, 0⟩⟩)).2 = some ⟨"a", ⟨0, 0, 0⟩⟩
    ∧ (onClick 3 false (some ⟨"a", ⟨0, 0, 0⟩⟩)).1 = 0 := by
  have h := onClick_select_iff 3 false (some ⟨"a", ⟨0, 0, 0⟩⟩)
  exact ⟨⟨by norm_num, rfl, rfl⟩,
    (h.1 _).mpr ⟨by norm_num, rfl, rfl⟩,
    (h.2.2 (by norm_num) rfl (by simp)).1⟩

/-- C10: calling the hover setter with the currently hovered mesh (or null
when nothing is hovered) is a no-op — no hover event, no scale tween, no
cursor change — and since a call always leaves `currentHovered` equal to
its argument, a second frame's call with the same hit-test result emits
nothing: at most one hover event per actual transition. -/
theorem setHovered_same_noop (cur next : Option SiteNode) (p p' : ℝ × ℝ) :
    setHovered cur cur p = ⟨cur, [], [], none⟩
    ∧ (setHovered cur next p).current = next
    ∧ setHovered (setHovered cur next p).current next p' =
        ⟨next, [], [], none⟩ := by
  have hcur : ∀ c n : Option SiteNode, ∀ q : ℝ × ℝ,
      (setHovered c n q).current = n := by
    intro c n q
    unfold setHovered
    by_cases h : c = n
    · simp [h]
    · cases n <;> simp [h]
  refine ⟨?_, hcur cur next p, ?_⟩
  · unfold setHovered
    simp
  · rw [hcur cur next p]
    unfold setHovered
    simp

/-- C5 counterexample: with the pointer last seen at client coordinates
(100, 200), clearing the hover emits `{site: null, x: 0, y: 0}`, which is
not the payload `{site: null, x: 100, y: 200}` the claim requires. -/
theorem hover_clear_event_counterexample :
    (setHovered (some ⟨"a", ⟨1, 2, 3⟩⟩) none (100, 200)).events =
        [⟨none, 0, 0⟩]
    ∧ (⟨none, 0, 0⟩ : HoverPayload) ≠ ⟨none, 100, 200⟩ := by
  constructor
  · simp [setHovered]
  · intro h
    have hx := congrArg HoverPayload.x h
    norm_num at hx

/-- C5 amended: a hover event for a newly hovered node carries that node
and the last known pointer coordinates, but the event emitted when hover
clears carries `null` with the fixed coordinates (0, 0), not the pointer's
most recent position. -/
theorem hover_events_payload (cur : Option SiteNode) (s : SiteNode)
    (p : ℝ × ℝ) :
    (cur ≠ some s →
      (setHovered cur (some s) p).events = [⟨some s, p.1, p.2⟩])
    ∧ (cur ≠ none → (setHovered cur none p).events = [⟨none, 0, 0⟩]) := by
  constructor
  · intro h
    unfold setHovered
    simp [h]
  · intro h
    unfold setHovered
    simp [h]

/-- Witness for C5's amended theorem at concrete sites and pointer (5, 6). -/
theorem hover_events_payload_witness :
    ((some ⟨"a", ⟨0, 0, 0⟩⟩ : Option SiteNode) ≠ some ⟨"b", ⟨1, 0, 0⟩⟩
      ∧ (some ⟨"a", ⟨0, 0, 0⟩⟩ : Option SiteNode) ≠ none)
    ∧ (setHovered (some ⟨"a", ⟨0, 0, 0⟩⟩) (some ⟨"b", ⟨1, 0, 0⟩⟩)
        ((5 : ℝ), (6 : ℝ))).events = [⟨some ⟨"b", ⟨1, 0, 0⟩⟩, 5, 6⟩]
    ∧ (setHovered (some ⟨"a", ⟨0, 0, 0⟩⟩) none ((5 : ℝ), (6 : ℝ))).events =
        [⟨none, 0, 0⟩] := by
  refine ⟨⟨by simp, by simp⟩, ?_, ?_⟩
  · exact (hover_events_payload (some ⟨"a", ⟨0, 0, 0⟩⟩) ⟨"b", ⟨1, 0, 0⟩⟩
      (5, 6)).1 (by simp)
  · exact (hover_events_payload (some ⟨"a", ⟨0, 0, 0⟩⟩) ⟨"b", ⟨1, 0, 0⟩⟩
      (5, 6)).2 (by simp)

/-- C3: requesting focus on `A` and then on `B` before `A`'s transition
completes emits `onFocusComplete` exactly once, for `B`, never for `A`:
the second request replaces (kills) `A`'s tweens, and even a completion of
`A`'s tween after the supersession would be silenced by the
pending-focus-id guard. -/
theorem focus_supersede_completes_once (worldPos : SiteNode → V3)
    (rt : SceneRuntime) (A B : SiteNode) (h : A.id ≠ B.id) :
    focusCompletions (supersedeTrace worldPos rt A B).2 = [B.id]
    ∧ A.id ∉ focusCompletions (supersedeTrace worldPos rt A B).2
    ∧ (completeTargetTween
        { (applyFocusEffect worldPos
            (applyFocusEffect worldPos rt (some A)).1 (some B)).1 with
          targetTween :=
            (applyFocusEffect worldPos rt (some A)).1.targetTween }).2 =
        [] := by
  have hsymm : B.id ≠ A.id := Ne.symm h
  unfold supersedeTrace
  cases hcur : rt.currentHovered with
  | none =>
      simp [applyFocusEffect, completeTargetTween, focusCompletions,
        setHovered, hcur, hsymm, h]
  | some s =>
      simp [applyFocusEffect, completeTargetTween, focusCompletions,
        setHovered, hcur, hsymm, h]

/-- Witness for C3: a concrete runtime, two concrete sites and a constant
world-position lookup. -/
theorem focus_supersede_completes_once_witness :
    (("a" : String) ≠ "b")
    ∧ focusCompletions
        (supersedeTrace (fun _ => ⟨0, 0, 0⟩)
          ⟨⟨0, 0, 40⟩, ⟨0, 0, 0⟩, none, false, true, none, none, none⟩
          ⟨"a", ⟨1, 0, 0⟩⟩ ⟨"b", ⟨2, 0, 0⟩⟩).2 = ["b"]
    ∧ ("a" : String) ∉ focusCompletions
        (supersedeTrace (fun _ => ⟨0, 0, 0⟩)
          ⟨⟨0, 0, 40⟩, ⟨0, 0, 0⟩, none, false, true, none, none, none⟩
          ⟨"a", ⟨1, 0, 0⟩⟩ ⟨"b", ⟨2, 0, 0⟩⟩).2 := by
  have h := focus_supersede_completes_once (fun _ => ⟨0, 0, 0⟩)
    ⟨⟨0, 0, 40⟩, ⟨0, 0, 0⟩, none, false, true, none, none, none⟩
    ⟨"a", ⟨1, 0, 0⟩⟩ ⟨"b", ⟨2, 0, 0⟩⟩ (by decide)
  exact ⟨by decide, h.1, h.2.1⟩

/-- C6: a null focus request clears the pending id and the hover, unlocks
focus, re-enables the controls, replaces (kills) both in-flight tweens by
tweens ending at the base camera pose (0, 0, 40) and the origin
orbit-target, and completing those tweens puts the camera back at the base
pose and the orbit-target at the origin. -/
theorem null_focus_returns_to_base (worldPos : SiteNode → V3)
    (rt : SceneRuntime) :
    (applyFocusEffect worldPos rt none).1.pendingFocusId = none
    ∧ (applyFocusEffect worldPos rt none).1.focusLocked = false
    ∧ (applyFocusEffect worldPos rt none).1.controlsEnabled = true
    ∧ (applyFocusEffect worldPos rt none).1.currentHovered = none
    ∧ (applyFocusEffect worldPos rt none).1.cameraTween =
        some ⟨⟨0, 0, 40⟩, none⟩
    ∧ (applyFocusEffect worldPos rt none).1.targetTween =
        some ⟨⟨0, 0, 0⟩, none⟩
    ∧ (completeCameraTween
        (completeTargetTween
          (applyFocusEffect worldPos rt none).1).1).1.cameraPos =
        ⟨0, 0, 40⟩
    ∧ (completeCameraTween
        (completeTargetTween
          (applyFocusEffect worldPos rt none).1).1).1.controlsTarget =
        ⟨0, 0, 0⟩ := by
  cases hcur : rt.currentHovered with
  | none =>
      simp [applyFocusEffect, completeTargetTween, completeCameraTween,
        setHovered, baseCameraPosition, hcur]
  | some s =>
      simp [applyFocusEffect, completeTargetTween, completeCameraTween,
        setHovered, baseCameraPosition, hcur]

/-- C7: with target 0, a frame with positive delta multiplies the weight by
`1 - min 1 (delta * 6)`, a factor in `[0, 1)`; starting anywhere in
`[0, 1]` the per-frame weights stay in `[0, 1]`, are monotonically
non-increasing, and tend to 0. -/
theorem disturb_weight_decay (w δ : ℝ) (hw0 : 0 ≤ w) (hw1 : w ≤ 1)
    (hδ : 0 < δ) :
    (0 ≤ 1 - min 1 (δ * 6) ∧ 1 - min 1 (δ * 6) < 1)
    ∧ updateDisturbWeight w 0 δ = w * (1 - min 1 (δ * 6))
    ∧ (∀ n, 0 ≤ weightSeq w δ n ∧ weightSeq w δ n ≤ 1
        ∧ weightSeq w δ (n + 1) ≤ weightSeq w δ n)
    ∧ Filter.Tendsto (weightSeq w δ) Filter.atTop (nhds 0) := by
  have hb0 : 0 < min 1 (δ * 6) := lt_min one_pos (by linarith)
  have hb1 : min 1 (δ * 6) ≤ 1 := min_le_left _ _
  have hf0 : 0 ≤ 1 - min 1 (δ * 6) := by linarith
  have hf1 : 1 - min 1 (δ * 6) < 1 := by linarith
  have hclosed : ∀ n, weightSeq w δ n = w * (1 - min 1 (δ * 6)) ^ n := by
    intro n
    induction n with
    | zero => simp [weightSeq]
    | succ n ih =>
        show updateDisturbWeight (weightSeq w δ n) 0 δ = _
        rw [ih]
        unfold updateDisturbWeight
        ring
  refine ⟨⟨hf0, hf1⟩, by unfold updateDisturbWeight; ring, ?_, ?_⟩
  · intro n
    have hp0 : 0 ≤ (1 - min 1 (δ * 6)) ^ n := pow_nonneg hf0 n
    have hp1 : (1 - min 1 (δ * 6)) ^ n ≤ 1 := pow_le_one₀ hf0 hf1.le
    have hstep : (1 - min 1 (δ * 6)) ^ (n + 1) ≤ (1 - min 1 (δ * 6)) ^ n := by
      rw [pow_succ]
      nlinarith
    rw [hclosed n, hclosed (n + 1)]
    exact ⟨mul_nonneg hw0 hp0, by nlinarith,
      mul_le_mul_of_nonneg_left hstep hw0⟩
  · have hpow := tendsto_pow_atTop_nhds_zero_of_lt_one hf0 hf1
    have hmul := hpow.const_mul w
    rw [mul_zero] at hmul
    exact hmul.congr fun n => (hclosed n).symm

/-- Witness for C7 at weight 1 and delta 1. -/
theorem disturb_weight_decay_witness :
    ((0 : ℝ) ≤ 1 ∧ (1 : ℝ) ≤ 1 ∧ (0 : ℝ) < 1)
    ∧ ((0 ≤ 1 - min 1 ((1 : ℝ) * 6) ∧ 1 - min 1 ((1 : ℝ) * 6) < 1)
      ∧ updateDisturbWeight 1 0 1 = 1 * (1 - min 1 ((1 : ℝ) * 6))
      ∧ (∀ n, 0 ≤ weightSeq 1 1 n ∧ weightSeq 1 1 n ≤ 1
          ∧ weightSeq 1 1 (n + 1) ≤ weightSeq 1 1 n)
      ∧ Filter.Tendsto (weightSeq 1 1) Filter.atTop (nhds 0)) :=
  ⟨⟨by norm_num, by norm_num, by norm_num⟩,
    disturb_weight_decay 1 1 (by norm_num) (by norm_num) (by norm_num)⟩

/-- C8: label scale and opacity are non-increasing in the camera distance
and stay inside their clamp bounds `[0.72, 2.35]` and `[0.24, 0.95]` for
every distance from 0 upward. -/
theorem label_scale_opacity (d1 d2 : ℝ) (h0 : 0 ≤ d1) (h12 : d1 ≤ d2) :
    labelScale d2 ≤ labelScale d1 ∧ labelOpacity d2 ≤ labelOpacity d1
    ∧ 0.72 ≤ labelScale d1 ∧ labelScale d1 ≤ 2.35
    ∧ 0.24 ≤ labelOpacity d1 ∧ labelOpacity d1 ≤ 0.95 := by
  unfold labelScale labelOpacity clampR
  refine ⟨?_, ?_, le_max_left _ _, ?_, le_max_left _ _, ?_⟩
  · exact max_le_max (le_refl _) (min_le_min (le_refl _) (by nlinarith))
  · exact max_le_max (le_refl _) (min_le_min (le_refl _) (by nlinarith))
  · exact max_le (by norm_num) (min_le_left _ _)
  · exact max_le (by norm_num) (min_le_left _ _)

/-- Witness for C8 at distances 5 and 10. -/
theorem label_scale_opacity_witness :
    ((0 : ℝ) ≤ 5 ∧ (5 : ℝ) ≤ 10)
    ∧ (labelScale 10 ≤ labelScale 5 ∧ labelOpacity 10 ≤ labelOpacity 5
      ∧ 0.72 ≤ labelScale 5 ∧ labelScale 5 ≤ 2.35
      ∧ 0.24 ≤ labelOpacity 5 ∧ labelOpacity 5 ≤ 0.95) :=
  ⟨⟨by norm_num, by norm_num⟩,
    label_scale_opacity 5 10 (by norm_num) (by norm_num)⟩

/-! ## Helper lemmas for direction normalization -/

theorem V3.lengthSq_nonneg (v : V3) : 0 ≤ v.lengthSq := by
  unfold V3.lengthSq
  positivity

theorem V3.lengthSq_eq_zero_iff (v : V3) : v.lengthSq = 0 ↔ v = ⟨0, 0, 0⟩ := by
  cases v with
  | mk x y z =>
      unfold V3.lengthSq
      constructor
      · intro h
        have hx : x = 0 := pow_eq_zero_iff two_ne_zero |>.mp
          (le_antisymm (by nlinarith [sq_nonneg y, sq_nonneg z]) (sq_nonneg x))
        have hy : y = 0 := pow_eq_zero_iff two_ne_zero |>.mp
          (le_antisymm (by nlinarith [sq_nonneg x, sq_nonneg z]) (sq_nonneg y))
        have hz : z = 0 := pow_eq_zero_iff two_ne_zero |>.mp
          (le_antisymm (by nlinarith [sq_nonneg x, sq_nonneg y]) (sq_nonneg z))
        rw [hx, hy, hz]
      · intro h
        injection h with hx hy hz
        rw [hx, hy, hz]
        norm_num

theorem V3.length_eq_zero_iff (v : V3) : v.length = 0 ↔ v = ⟨0, 0, 0⟩ := by
  unfold V3.length
  rw [Real.sqrt_eq_zero (V3.lengthSq_nonneg v)]
  exact V3.lengthSq_eq_zero_iff v

theorem V3.lengthSq_normalize {v : V3} (h : v ≠ ⟨0, 0, 0⟩) :
    (V3.normalize v).lengthSq = 1 := by
  have hlen : v.length ≠ 0 := fun h0 => h ((V3.length_eq_zero_iff v).mp h0)
  have hsq : v.length ^ 2 = v.lengthSq := Real.sq_sqrt (V3.lengthSq_nonneg v)
  unfold V3.normalize
  rw [if_neg hlen]
  show (v.x / v.length) ^ 2 + (v.y / v.length) ^ 2 + (v.z / v.length) ^ 2 = 1
  field_simp
  rw [hsq]
  rfl

/-- C9: degenerate direction vectors get fixed defaults, with no division
by zero: a zero midpoint makes the curve normal the up-vector (0, 1, 0)
while any nonzero midpoint uses its (unit-length) normalization, and a
camera-to-node vector of squared length below the 0.0001 near-zero
threshold — in particular a node coinciding with the camera — makes the
approach direction the default (0, 0, 1), while otherwise the normalized
camera-to-node direction is used. -/
theorem degenerate_direction_fallbacks (m cam tgt : V3) :
    (m = ⟨0, 0, 0⟩ → curveNormal m = ⟨0, 1, 0⟩)
    ∧ (m ≠ ⟨0, 0, 0⟩ → curveNormal m = V3.normalize m
        ∧ (curveNormal m).lengthSq = 1)
    ∧ (cam = tgt → approachDirection cam tgt = ⟨0, 0, 1⟩)
    ∧ ((V3.sub cam tgt).lengthSq < 0.0001 →
        approachDirection cam tgt = ⟨0, 0, 1⟩)
    ∧ (0.0001 ≤ (V3.sub cam tgt).lengthSq →
        approachDirection cam tgt = V3.normalize (V3.sub cam tgt)) := by
  have hdefault : V3.normalize ⟨0, 0, 1⟩ = ⟨0, 0, 1⟩ := by
    unfold V3.normalize V3.length V3.lengthSq
    norm_num
  have hnear : (V3.sub cam tgt).lengthSq < 0.0001 →
      approachDirection cam tgt = ⟨0, 0, 1⟩ := by
    intro h
    unfold approachDirection
    rw [if_pos h, hdefault]
  refine ⟨?_, ?_, ?_, hnear, ?_⟩
  · intro h
    subst h
    unfold curveNormal V3.normalize V3.length V3.lengthSq
    norm_num
  · intro h
    have h1 : (V3.normalize m).lengthSq = 1 := V3.lengthSq_normalize h
    have hcn : curveNormal m = V3.normalize m := by
      unfold curveNormal
      rw [h1]
      norm_num
    exact ⟨hcn, hcn ▸ h1⟩
  · intro h
    subst h
    apply hnear
    have hz : V3.sub cam cam = ⟨0, 0, 0⟩ := by
      unfold V3.sub
      norm_num
    rw [hz]
    unfold V3.lengthSq
    norm_num
  · intro h
    unfold approachDirection
    rw [if_neg (not_lt.mpr h)]

/-- Witness for C9: the zero midpoint gets the up-vector, the nonzero
midpoint (3, 4, 0) gets its unit normalization, and a camera coinciding
with the focus target gets the default approach direction (0, 0, 1). -/
theorem degenerate_direction_fallbacks_witness :
    ((⟨0, 0, 0⟩ : V3) = ⟨0, 0, 0⟩ ∧ (⟨3, 4, 0⟩ : V3) ≠ ⟨0, 0, 0⟩)
    ∧ curveNormal ⟨0, 0, 0⟩ = ⟨0, 1, 0⟩
    ∧ curveNormal ⟨3, 4, 0⟩ = V3.normalize ⟨3, 4, 0⟩
    ∧ (curveNormal ⟨3, 4, 0⟩).lengthSq = 1
    ∧ approachDirection ⟨5, 6, 7⟩ ⟨5, 6, 7⟩ = ⟨0, 0, 1⟩ := by
  have hne : (⟨3, 4, 0⟩ : V3) ≠ ⟨0, 0, 0⟩ := by
    intro h
    injection h with hx hy hz
    norm_num at hx
  have h1 := (degenerate_direction_fallbacks ⟨0, 0, 0⟩ ⟨5, 6, 7⟩ ⟨5, 6, 7⟩).1 rfl
  have h2 := (degenerate_direction_fallbacks ⟨3, 4, 0⟩ ⟨5, 6, 7⟩ ⟨5, 6, 7⟩).2.1 hne
  have h3 := (degenerate_direction_fallbacks ⟨3, 4, 0⟩ ⟨5, 6, 7⟩ ⟨5, 6, 7⟩).2.2.1 rfl
  exact ⟨⟨rfl, hne⟩, h1, h2.1, h2.2, h3⟩

/-- C1 counterexample: a particle at base position (1, 0, 0) with phase 0,
speed 0.25, amplitude 0.08, twist 0.0018 and pulse 0.004 — all inside the
documented parameter ranges — does not sit at its base position at elapsed
time 0: its initial swirl angle is sin(0.22)·0.0018 > 0, so the z
coordinate is positive. -/
theorem galaxy_t0_counterexample :
    galaxyLivePos ⟨1, 0, 0⟩ 0 0.25 0.08 0.0018 0.004 0 ≠ ⟨1, 0, 0⟩ := by
  intro h
  have hz := congrArg V3.z h
  unfold galaxyLivePos at hz
  norm_num [Real.sqrt_one] at hz
  rcases hz with h1 | h2
  · have hsin022 : 0 < Real.sin (11 / 50) := by
      apply Real.sin_pos_of_pos_of_lt_pi (by norm_num)
      nlinarith [Real.pi_gt_three]
    have hs0 : 0 < Real.sin (11 / 50) * (9 / 5000) :=
      mul_pos hsin022 (by norm_num)
    have hslt : Real.sin (11 / 50) * (9 / 5000) < Real.pi := by
      nlinarith [Real.sin_le_one (11 / 50 : ℝ), Real.pi_gt_three]
    exact absurd h1 (ne_of_gt (Real.sin_pos_of_pos_of_lt_pi hs0 hslt))
  · nlinarith [Real.neg_one_le_sin (2 / 25 : ℝ)]

/-- C1 amended: the swirl, pulse and wobble terms of the galaxy position
formula do not vanish at elapsed time 0 for all parameters; they vanish
exactly when the three phase-and-radius sine arguments have zero sine, and
whenever those three sines are zero the time-0 live position equals the
base position. -/
theorem galaxy_t0_base (base : V3) (phase speed amplitude twist pulseAmp : ℝ)
    (h1 : Real.sin (phase + Real.sqrt (base.x ^ 2 + base.z ^ 2) * 0.22) = 0)
    (h2 : Real.sin (phase * 1.7 + Real.sqrt (base.x ^ 2 + base.z ^ 2) * 0.08) = 0)
    (h3 : Real.sin (phase + Real.sqrt (base.x ^ 2 + base.z ^ 2) * 0.19) = 0) :
    galaxyLivePos base phase speed amplitude twist pulseAmp 0 = base := by
  cases base with
  | mk x y z =>
      unfold galaxyLivePos
      simp only at h1 h2 h3 ⊢
      simp only [zero_mul, zero_add, h1, h2, h3, Real.sin_zero, Real.cos_zero,
        mul_zero, mul_one, sub_zero, add_zero]

/-- Witness for C1's amended theorem: a particle at the origin with phase 0
has all three initial sine arguments equal to 0, and its time-0 position is
its base position. -/
theorem galaxy_t0_base_witness :
    (Real.sin ((0 : ℝ) + Real.sqrt ((0 : ℝ) ^ 2 + (0 : ℝ) ^ 2) * 0.22) = 0
      ∧ Real.sin ((0 : ℝ) * 1.7 + Real.sqrt ((0 : ℝ) ^ 2 + (0 : ℝ) ^ 2) * 0.08) = 0
      ∧ Real.sin ((0 : ℝ) + Real.sqrt ((0 : ℝ) ^ 2 + (0 : ℝ) ^ 2) * 0.19) = 0)
    ∧ galaxyLivePos ⟨0, 0, 0⟩ 0 0.25 0.08 0.0018 0.004 0 = ⟨0, 0, 0⟩ := by
  have hs : Real.sqrt ((0 : ℝ) ^ 2 + (0 : ℝ) ^ 2) = 0 := by
    norm_num [Real.sqrt_zero]
  refine ⟨⟨by norm_num [hs], by norm_num [hs], by norm_num [hs]⟩, ?_⟩
  exact galaxy_t0_base ⟨0, 0, 0⟩ 0 0.25 0.08 0.0018 0.004
    (by norm_num [hs]) (by norm_num [hs]) (by norm_num [hs])
